import Mathlib

/-!
Verification development for the go-flipp-tutorial-web service (src/main.go).

The program is a two-handler HTTP service over a single JSON file
(posts.json).  This file gives a shallow embedding of its data model and
operations:

* `Post` mirrors the Go struct with its six fields.
* The durable resource is modelled as `Option String`: `none` models a
  missing or unreadable file, `some s` a file whose full content is `s`.
* `marshalIndentPosts` models `json.MarshalIndent(posts, "", "  ")` (the
  exact textual output, including Go string escaping), `encodePosts`
  models `json.NewEncoder(w).Encode(posts)` (compact output plus a
  trailing newline).
* `unmarshalPosts` and `unmarshalPost` model `json.Unmarshal` restricted
  to the record schema: whitespace-insensitive, keys in any order and
  matched case-insensitively, unknown keys ignored, string and integer
  field values.  Where Go would partially populate the target and return
  an error that the program ignores, the model fails the whole parse and
  leaves the target at its zero value; Go also distinguishes a nil slice
  (marshalled as null) from an empty one (marshalled as []), which the
  model collapses to the empty list.
* Handlers are pure state-passing functions: they take the current date
  (Go: time.Now().Format("2006-01-02")), the request method and body and
  the file content, and return the new file content together with the
  ordered list of writes made to the Http response.
-/

set_option maxRecDepth 8192

namespace FlippTutorial

/-- The Go struct Post of src/main.go with its six fields.  Go int is
modelled as Int (no operation of the program approaches the int64
bounds). -/
structure Post where
  Title      : String
  Content    : String
  CreatedAt  : String
  Author     : String
  ViewCount  : Int
  LastViewed : String
deriving DecidableEq

/-- Pointer receiver increaseViewCount: post.ViewCount += 1. -/
def Post.increaseViewCount (post : Post) : Post :=
  { post with ViewCount := post.ViewCount + 1 }

/-- Pointer receiver setLastViewed: post.LastViewed = time.Now().Format("2006-01-02");
the formatted current date is passed in as `today`. -/
def Post.setLastViewed (today : String) (post : Post) : Post :=
  { post with LastViewed := today }

/-- Pointer receiver setCreatedAt: post.CreatedAt = time.Now().Format("2006-01-02"). -/
def Post.setCreatedAt (today : String) (post : Post) : Post :=
  { post with CreatedAt := today }

/-- The zero value of the Post struct (var newPost Post). -/
def zeroPost : Post := ⟨"", "", "", "", 0, ""⟩

/-- The global package variable filePath = "posts.json". -/
def filePath : String := "posts.json"

/-! ### Textual JSON rendering (encoding/json marshalling of []Post) -/

/-- Hexadecimal digit characters as emitted by the Go JSON encoder
(lowercase). -/
def hexDigitChar (n : Nat) : Char :=
  match n with
  | 0 => '0' | 1 => '1' | 2 => '2' | 3 => '3' | 4 => '4'
  | 5 => '5' | 6 => '6' | 7 => '7' | 8 => '8' | 9 => '9'
  | 10 => 'a' | 11 => 'b' | 12 => 'c' | 13 => 'd' | 14 => 'e'
  | _ => 'f'

/-- Decimal digit characters. -/
def digitChar (n : Nat) : Char :=
  match n with
  | 0 => '0' | 1 => '1' | 2 => '2' | 3 => '3' | 4 => '4'
  | 5 => '5' | 6 => '6' | 7 => '7' | 8 => '8' | _ => '9'

/-- How the Go JSON encoder (with its default HTML escaping) writes one
character inside a string literal. -/
def escapeChar (c : Char) : List Char :=
  if c = '"' then ['\\', '"']
  else if c = '\\' then ['\\', '\\']
  else if c = '\n' then ['\\', 'n']
  else if c = '\r' then ['\\', 'r']
  else if c = '\t' then ['\\', 't']
  else if c.toNat < 0x20 then
    ['\\', 'u', '0', '0', hexDigitChar (c.toNat / 16), hexDigitChar (c.toNat % 16)]
  else if c = '<' then ['\\', 'u', '0', '0', '3', 'c']
  else if c = '>' then ['\\', 'u', '0', '0', '3', 'e']
  else if c = '&' then ['\\', 'u', '0', '0', '2', '6']
  else if c.toNat = 0x2028 then ['\\', 'u', '2', '0', '2', '8']
  else if c.toNat = 0x2029 then ['\\', 'u', '2', '0', '2', '9']
  else [c]

/-- Escape every character of a string body. -/
def escapeString : List Char → List Char
  | [] => []
  | c :: rest => escapeChar c ++ escapeString rest

/-- A JSON string literal: quote, escaped body, quote. -/
def quoteString (s : List Char) : List Char :=
  '"' :: (escapeString s ++ ['"'])

/-- Decimal digits of n, most significant first, by repeated division;
fuel-driven so that it is structurally recursive (any fuel at least the
digit count of n is enough, and n itself always is). -/
def natDigitsAux : Nat → Nat → List Char
  | 0, _ => []
  | fuel + 1, n => if n = 0 then [] else natDigitsAux fuel (n / 10) ++ [digitChar (n % 10)]

/-- Decimal rendering of a natural number, as strconv would produce. -/
def renderNat (n : Nat) : List Char :=
  if n = 0 then ['0'] else natDigitsAux (n + 1) n

/-- Decimal rendering of an integer (Go strconv.AppendInt base 10). -/
def renderInt (i : Int) : List Char :=
  if i < 0 then '-' :: renderNat i.natAbs else renderNat i.toNat

/-- One Post as MarshalIndent(posts, "", "  ") renders it inside the
top-level array: members indented by four spaces, closing brace by two. -/
def renderPostIndent (p : Post) : List Char :=
  '{' :: '\n' :: ' ' :: ' ' :: ' ' :: ' ' ::
    ('"' :: ('T' :: 'i' :: 't' :: 'l' :: 'e' :: '"' :: ':' :: ' ' ::
      (quoteString p.Title.data ++ ',' :: '\n' :: ' ' :: ' ' :: ' ' :: ' ' ::
    ('"' :: ('C' :: 'o' :: 'n' :: 't' :: 'e' :: 'n' :: 't' :: '"' :: ':' :: ' ' ::
      (quoteString p.Content.data ++ ',' :: '\n' :: ' ' :: ' ' :: ' ' :: ' ' ::
    ('"' :: ('C' :: 'r' :: 'e' :: 'a' :: 't' :: 'e' :: 'd' :: 'A' :: 't' :: '"' :: ':' :: ' ' ::
      (quoteString p.CreatedAt.data ++ ',' :: '\n' :: ' ' :: ' ' :: ' ' :: ' ' ::
    ('"' :: ('A' :: 'u' :: 't' :: 'h' :: 'o' :: 'r' :: '"' :: ':' :: ' ' ::
      (quoteString p.Author.data ++ ',' :: '\n' :: ' ' :: ' ' :: ' ' :: ' ' ::
    ('"' :: ('V' :: 'i' :: 'e' :: 'w' :: 'C' :: 'o' :: 'u' :: 'n' :: 't' :: '"' :: ':' :: ' ' ::
      (renderInt p.ViewCount ++ ',' :: '\n' :: ' ' :: ' ' :: ' ' :: ' ' ::
    ('"' :: ('L' :: 'a' :: 's' :: 't' :: 'V' :: 'i' :: 'e' :: 'w' :: 'e' :: 'd' :: '"' :: ':' :: ' ' ::
      (quoteString p.LastViewed.data ++ '\n' :: ' ' :: ' ' :: '}' :: []))))))))))))))))))

/-- The elements of the indented array, separated by a comma, a newline
and the two-space element indentation. -/
def renderElemsIndent : List Post → List Char
  | [] => []
  | [p] => renderPostIndent p
  | p :: ps => renderPostIndent p ++ ',' :: '\n' :: ' ' :: ' ' :: renderElemsIndent ps

/-- json.MarshalIndent(posts, "", "  "): the exact file content written
by savePosts.  The empty collection renders as [] (Go writes null for a
nil slice; the model collapses nil and empty slices). -/
def marshalIndentPosts (ps : List Post) : String :=
  match ps with
  | [] => "[]"
  | _ => ⟨'[' :: '\n' :: ' ' :: ' ' :: (renderElemsIndent ps ++ '\n' :: ']' :: [])⟩

/-- One Post in the compact form produced by json.Marshal / Encoder.Encode. -/
def renderPostCompact (p : Post) : List Char :=
  '{' :: ('"' :: ('T' :: 'i' :: 't' :: 'l' :: 'e' :: '"' :: ':' ::
      (quoteString p.Title.data ++ ',' ::
    ('"' :: ('C' :: 'o' :: 'n' :: 't' :: 'e' :: 'n' :: 't' :: '"' :: ':' ::
      (quoteString p.Content.data ++ ',' ::
    ('"' :: ('C' :: 'r' :: 'e' :: 'a' :: 't' :: 'e' :: 'd' :: 'A' :: 't' :: '"' :: ':' ::
      (quoteString p.CreatedAt.data ++ ',' ::
    ('"' :: ('A' :: 'u' :: 't' :: 'h' :: 'o' :: 'r' :: '"' :: ':' ::
      (quoteString p.Author.data ++ ',' ::
    ('"' :: ('V' :: 'i' :: 'e' :: 'w' :: 'C' :: 'o' :: 'u' :: 'n' :: 't' :: '"' :: ':' ::
      (renderInt p.ViewCount ++ ',' ::
    ('"' :: ('L' :: 'a' :: 's' :: 't' :: 'V' :: 'i' :: 'e' :: 'w' :: 'e' :: 'd' :: '"' :: ':' ::
      (quoteString p.LastViewed.data ++ '}' :: []))))))))))))))))))

/-- Compact array elements, comma separated. -/
def renderElemsCompact : List Post → List Char
  | [] => []
  | [p] => renderPostCompact p
  | p :: ps => renderPostCompact p ++ ',' :: renderElemsCompact ps

/-- json.NewEncoder(w).Encode(posts): compact JSON followed by a newline.
This is what the index handler writes to the response (2-space
indentation is only used for the file, by savePosts). -/
def encodePosts (ps : List Post) : String :=
  match ps with
  | [] => "[]\n"
  | _ => ⟨'[' :: (renderElemsCompact ps ++ ']' :: '\n' :: [])⟩

/-- savePosts serializes the collection with MarshalIndent and overwrites
the durable file in one WriteFile call; the value returned here is the
full new file content.  (A WriteFile error would be returned to the
caller, but both callers discard the returned error, so write failures
are not modelled.) -/
def savePosts (posts : List Post) : String :=
  marshalIndentPosts posts

/-! ### JSON parsing (encoding/json unmarshalling into []Post)

json.Unmarshal first validates the input syntax and, on a syntax error,
reports it without touching the target, which both call sites leave at
its zero value.  The parser below is all-or-nothing in the same way; it
accepts the schema of the record collection (arrays of objects whose
members are string or integer values, arbitrary member order, arbitrary
interleaved whitespace, case-insensitive field names, unknown fields
ignored, and the top-level literal null for a nil slice). -/

/-- JSON insignificant whitespace. -/
def isWs (c : Char) : Bool :=
  c == ' ' || c == '\n' || c == '\t' || c == '\r'

/-- Drop leading whitespace. -/
def skipWs : List Char → List Char
  | [] => []
  | c :: rest => if isWs c then skipWs rest else c :: rest

/-- Value of a hexadecimal digit (both cases, as Go accepts in a \u escape). -/
def hexVal (c : Char) : Option Nat :=
  if 48 ≤ c.toNat ∧ c.toNat ≤ 57 then some (c.toNat - 48)
  else if 97 ≤ c.toNat ∧ c.toNat ≤ 102 then some (c.toNat - 87)
  else if 65 ≤ c.toNat ∧ c.toNat ≤ 70 then some (c.toNat - 55)
  else none

/-- Value of a decimal digit. -/
def digitVal (c : Char) : Option Nat :=
  if 48 ≤ c.toNat ∧ c.toNat ≤ 57 then some (c.toNat - 48) else none

/-- Consume a run of decimal digits, accumulating their value. -/
def parseDigitsAux (acc : Nat) : List Char → Nat × List Char
  | [] => (acc, [])
  | c :: rest =>
    match digitVal c with
    | some d => parseDigitsAux (acc * 10 + d) rest
    | none => (acc, c :: rest)

/-- Parse a nonempty run of decimal digits. -/
def parseNat (l : List Char) : Option (Nat × List Char) :=
  match l with
  | [] => none
  | c :: _ =>
    match digitVal c with
    | some _ => some (parseDigitsAux 0 l)
    | none => none

/-- Parse the body of a JSON string literal up to its closing quote,
undoing the escapes the Go decoder accepts.  The fuel argument only
drives the recursion (one unit per decoded character; the wrapper
parseString supplies more than enough).  One simplification against Go:
a \uXXXX escape holding a surrogate decodes here to U+FFFD on its own,
whereas Go combines a valid adjacent pair into one code point (the
encoder never emits surrogate escapes, so the marshalled range is
unaffected). -/
def parseStringBody : Nat → List Char → Option (List Char × List Char)
  | 0, _ => none
  | _ + 1, [] => none
  | fuel + 1, c :: rest =>
    if c = '"' then some ([], rest)
    else if c = '\\' then
      match rest with
      | [] => none
      | e :: rest2 =>
        if e = '"' then (parseStringBody fuel rest2).map (fun x => ('"' :: x.1, x.2))
        else if e = '\\' then (parseStringBody fuel rest2).map (fun x => ('\\' :: x.1, x.2))
        else if e = '/' then (parseStringBody fuel rest2).map (fun x => ('/' :: x.1, x.2))
        else if e = 'n' then (parseStringBody fuel rest2).map (fun x => ('\n' :: x.1, x.2))
        else if e = 'r' then (parseStringBody fuel rest2).map (fun x => ('\r' :: x.1, x.2))
        else if e = 't' then (parseStringBody fuel rest2).map (fun x => ('\t' :: x.1, x.2))
        else if e = 'b' then (parseStringBody fuel rest2).map (fun x => ('\x08' :: x.1, x.2))
        else if e = 'f' then (parseStringBody fuel rest2).map (fun x => ('\x0C' :: x.1, x.2))
        else if e = 'u' then
          match rest2 with
          | h1 :: h2 :: h3 :: h4 :: rest3 =>
            match hexVal h1, hexVal h2, hexVal h3, hexVal h4 with
            | some a, some b, some c3, some d =>
              let n := a * 4096 + b * 256 + c3 * 16 + d
              if 0xD800 ≤ n ∧ n < 0xE000 then
                (parseStringBody fuel rest3).map (fun x => ('�' :: x.1, x.2))
              else (parseStringBody fuel rest3).map (fun x => (Char.ofNat n :: x.1, x.2))
            | _, _, _, _ => none
          | _ => none
        else none
    else if c.toNat < 0x20 then none
    else (parseStringBody fuel rest).map (fun x => (c :: x.1, x.2))

/-- Parse a JSON string body; the decoded string is never longer than
the input, so the input length bounds the fuel. -/
def parseString (l : List Char) : Option (List Char × List Char) :=
  parseStringBody (l.length + 1) l

/-- A member value of the record schema: a string or an integer. -/
inductive JField where
  | str (s : List Char)
  | num (n : Int)
deriving DecidableEq

/-- Parse one member value (string literal or integer literal). -/
def parseValue (l : List Char) : Option (JField × List Char) :=
  match l with
  | [] => none
  | c :: rest =>
    if c = '"' then (parseString rest).map (fun x => (.str x.1, x.2))
    else if c = '-' then (parseNat rest).map (fun x => (.num (-(x.1 : Int)), x.2))
    else (parseNat (c :: rest)).map (fun x => (.num (x.1 : Int), x.2))

/-- Case-insensitive field-name comparison, as the Go decoder falls back
to when matching JSON keys against struct fields. -/
def keyMatches (k : List Char) (name : List Char) : Bool :=
  k.map Char.toLower == name.map Char.toLower

/-- Assign one decoded member to the matching struct field.  Unknown keys
are ignored; a matched key whose value has the wrong type fails the
decode (Go reports an UnmarshalTypeError, which the model turns into an
all-or-nothing failure). -/
def setField (p : Post) (kv : List Char × JField) : Option Post :=
  if keyMatches kv.1 ('T' :: 'i' :: 't' :: 'l' :: 'e' :: []) then
    match kv.2 with
    | .str s => some { p with Title := ⟨s⟩ }
    | _ => none
  else if keyMatches kv.1 ('C' :: 'o' :: 'n' :: 't' :: 'e' :: 'n' :: 't' :: []) then
    match kv.2 with
    | .str s => some { p with Content := ⟨s⟩ }
    | _ => none
  else if keyMatches kv.1 ('C' :: 'r' :: 'e' :: 'a' :: 't' :: 'e' :: 'd' :: 'A' :: 't' :: []) then
    match kv.2 with
    | .str s => some { p with CreatedAt := ⟨s⟩ }
    | _ => none
  else if keyMatches kv.1 ('A' :: 'u' :: 't' :: 'h' :: 'o' :: 'r' :: []) then
    match kv.2 with
    | .str s => some { p with Author := ⟨s⟩ }
    | _ => none
  else if keyMatches kv.1 ('V' :: 'i' :: 'e' :: 'w' :: 'C' :: 'o' :: 'u' :: 'n' :: 't' :: []) then
    match kv.2 with
    | .num n => some { p with ViewCount := n }
    | _ => none
  else if keyMatches kv.1 ('L' :: 'a' :: 's' :: 't' :: 'V' :: 'i' :: 'e' :: 'w' :: 'e' :: 'd' :: []) then
    match kv.2 with
    | .str s => some { p with LastViewed := ⟨s⟩ }
    | _ => none
  else some p

/-- Fold the decoded members into a Post, starting from the zero value
(later duplicates overwrite earlier ones, as in Go). -/
def parsePostFromMembers (ms : List (List Char × JField)) : Option Post :=
  ms.foldlM setField zeroPost

/-- Parse the members of a nonempty object: key, colon, value, then a
comma (more members) or a closing brace.  Fuel decreases once per
member. -/
def parseMembersAux : Nat → List Char → Option (List (List Char × JField) × List Char)
  | 0, _ => none
  | fuel + 1, l =>
    match skipWs l with
    | [] => none
    | c :: rest =>
      if c = '"' then
        match parseString rest with
        | none => none
        | some (key, rest1) =>
          match skipWs rest1 with
          | [] => none
          | c1 :: rest2 =>
            if c1 = ':' then
              match parseValue (skipWs rest2) with
              | none => none
              | some (v, rest3) =>
                match skipWs rest3 with
                | [] => none
                | c2 :: rest4 =>
                  if c2 = ',' then
                    (parseMembersAux fuel rest4).map (fun x => ((key, v) :: x.1, x.2))
                  else if c2 = '}' then some ([(key, v)], rest4)
                  else none
            else none
      else none

/-- Parse one JSON object; an object has fewer members than body
characters, so the body length bounds the member fuel. -/
def parseObject (l : List Char) : Option (List (List Char × JField) × List Char) :=
  match skipWs l with
  | [] => none
  | c :: rest =>
    if c = '{' then
      match skipWs rest with
      | [] => parseMembersAux (rest.length + 1) rest
      | c1 :: rest1 =>
        if c1 = '}' then some ([], rest1)
        else parseMembersAux (rest.length + 1) rest
    else none

/-- Parse one object and decode it into a Post. -/
def parsePost (l : List Char) : Option (Post × List Char) :=
  match parseObject l with
  | none => none
  | some (ms, rest) =>
    match parsePostFromMembers ms with
    | none => none
    | some p => some (p, rest)

/-- Parse the elements of a nonempty array of objects.  The fuel
decreases once per element. -/
def parseElemsAux : Nat → List Char → Option (List Post × List Char)
  | 0, _ => none
  | efuel + 1, l =>
    match parsePost l with
    | none => none
    | some (p, rest) =>
      match skipWs rest with
      | [] => none
      | c :: rest1 =>
        if c = ',' then (parseElemsAux efuel (skipWs rest1)).map (fun x => (p :: x.1, x.2))
        else if c = ']' then some ([p], rest1)
        else none

/-- json.Unmarshal(data, posts) for posts of type []Post: the whole input
must be one array (or null), with only whitespace around it.  On failure
the target keeps its zero value, which loadPost leaves as the empty
collection. -/
def unmarshalPosts (s : String) : Option (List Post) :=
  match skipWs s.data with
  | [] => none
  | c :: rest =>
    if c = '[' then
      match skipWs rest with
      | [] => none
      | c1 :: rest1 =>
        if c1 = ']' then (if skipWs rest1 = [] then some [] else none)
        else
          match parseElemsAux ((c1 :: rest1).length + 1) (c1 :: rest1) with
          | some (ps, rest2) => if skipWs rest2 = [] then some ps else none
          | none => none
    else if c = 'n' then
      match rest with
      | c1 :: c2 :: c3 :: rest1 =>
        if c1 = 'u' ∧ c2 = 'l' ∧ c3 = 'l' then (if skipWs rest1 = [] then some [] else none)
        else none
      | _ => none
    else none

/-- json.Unmarshal(body, newPost) for a single Post target.  (Go also
accepts a top-level null, leaving the target zero; create then stamps
the zero record either way, so the distinction is unobservable.) -/
def unmarshalPost (s : String) : Option Post :=
  match parsePost s.data with
  | some (p, rest) => if skipWs rest = [] then some p else none
  | none => none

/-! ### The handlers -/

/-- One write made to the Http response: http.Error (which sets a status
code and writes the message), a header set, or a body write. -/
inductive HttpEvent where
  | error (msg : String) (code : Nat)
  | headerSet (key value : String)
  | bodyWrite (s : String)
deriving DecidableEq

/-- loadPost(posts, w): reads the file; on a read error it writes a 500
response (message copied verbatim from the source) and falls through
without returning; the subsequent Unmarshal error is discarded, so the
collection stays empty.  Returns the loaded collection and the response
writes. -/
def loadPost (file : Option String) : List Post × List HttpEvent :=
  match file with
  | none => ([], [.error "Error reading request body" 500])
  | some data =>
    match unmarshalPosts data with
    | some ps => (ps, [])
    | none => ([], [])

/-- The index handler: load, bump every record (increaseViewCount then
setLastViewed), save, set the content type and encode the mutated
collection into the response.  The request method is never inspected. -/
def index (today : String) (method : String) (file : Option String) :
    Option String × List HttpEvent :=
  let loaded := loadPost file
  let posts := loaded.1.map (fun p => (p.increaseViewCount).setLastViewed today)
  (some (savePosts posts),
    loaded.2 ++ [.headerSet "Content-Type" "application/json",
                 .bodyWrite (encodePosts posts)])

/-- The create handler: reject a non-POST method with 405; reject an
unreadable body with 400; otherwise decode the body (a failed decode is
ignored, leaving the zero record), stamp CreatedAt, LastViewed and
ViewCount, load, append, save, and confirm.  The request body is
`none` when reading it fails. -/
def create (today : String) (method : String) (reqBody : Option String)
    (file : Option String) : Option String × List HttpEvent :=
  if method = "POST" then
    match reqBody with
    | none => (file, [.error "Error reading request body" 400])
    | some body =>
      let newPost := (unmarshalPost body).getD zeroPost
      let newPost := (newPost.setCreatedAt today).setLastViewed today
      let newPost := { newPost with ViewCount := 0 }
      let loaded := loadPost file
      let posts := loaded.1 ++ [newPost]
      (some (savePosts posts), loaded.2 ++ [.bodyWrite "Post successfully created"])
  else (file, [.error "Please submit a post request" 405])

/-- The two handlers of main. -/
inductive Handler where
  | index
  | create
deriving DecidableEq

/-- The routes registered by main: http.HandleFunc("/index", index) and
http.HandleFunc("/create", create). -/
def routes : List (String × Handler) :=
  [("/index", .index), ("/create", .create)]

/-! ### Round trip of the textual encoding: character-level lemmas -/

theorem char_ofNat_toNat (c : Char) : Char.ofNat c.toNat = c := by
  rcases c with ⟨⟨⟨n, hn⟩⟩, h⟩
  simp [Char.ofNat, Char.toNat, h, Char.ofNatAux]
  apply Char.eq_of_val_eq
  rfl

theorem hexVal_hexDigitChar : ∀ m < 16, hexVal (hexDigitChar m) = some m := by decide

theorem digitChar_facts :
    ∀ d < 10, digitVal (digitChar d) = some d ∧ digitChar d ≠ '"' ∧
      digitChar d ≠ '-' ∧ isWs (digitChar d) = false := by decide

theorem skipWs_cons_of_not (c : Char) (l : List Char) (h : isWs c = false) :
    skipWs (c :: l) = c :: l := by
  simp [skipWs, h]

theorem skipWs_nl (l : List Char) : skipWs ('\n' :: l) = skipWs l := rfl

theorem skipWs_sp (l : List Char) : skipWs (' ' :: l) = skipWs l := rfl

/-- The list does not start with a decimal digit (or is empty), so a
digit run stops in front of it. -/
def nonDigitHead : List Char → Prop
  | [] => True
  | c :: _ => digitVal c = none

theorem parseDigitsAux_stop (acc : Nat) (l : List Char) (h : nonDigitHead l) :
    parseDigitsAux acc l = (acc, l) := by
  cases l with
  | nil => rfl
  | cons c t =>
    simp only [nonDigitHead] at h
    simp [parseDigitsAux, h]

theorem escapeChar_ctrl (c : Char) (h1 : ¬c = '"') (h2 : ¬c = '\\') (h3 : ¬c = '\n')
    (h4 : ¬c = '\r') (h5 : ¬c = '\t') (h6 : c.toNat < 0x20) :
    escapeChar c =
      ['\\', 'u', '0', '0', hexDigitChar (c.toNat / 16), hexDigitChar (c.toNat % 16)] := by
  unfold escapeChar
  rw [if_neg h1, if_neg h2, if_neg h3, if_neg h4, if_neg h5, if_pos h6]

theorem escapeChar_plain (c : Char) (h1 : ¬c = '"') (h2 : ¬c = '\\') (h3 : ¬c = '\n')
    (h4 : ¬c = '\r') (h5 : ¬c = '\t') (h6 : ¬c.toNat < 0x20) (h7 : ¬c = '<')
    (h8 : ¬c = '>') (h9 : ¬c = '&') (h10 : ¬c.toNat = 0x2028) (h11 : ¬c.toNat = 0x2029) :
    escapeChar c = [c] := by
  unfold escapeChar
  rw [if_neg h1, if_neg h2, if_neg h3, if_neg h4, if_neg h5, if_neg h6, if_neg h7,
    if_neg h8, if_neg h9, if_neg h10, if_neg h11]

theorem parseStringBody_plain (fuel : Nat) (c : Char) (l : List Char) (h1 : ¬c = '"')
    (h2 : ¬c = '\\') (h6 : ¬c.toNat < 0x20) :
    parseStringBody (fuel + 1) (c :: l) =
      (parseStringBody fuel l).map (fun x => (c :: x.1, x.2)) := by
  rw [parseStringBody.eq_def]
  dsimp only []
  rw [if_neg h1, if_neg h2, if_neg h6]

/-- Undoing one escaped character: parsing the escape of c prepends c. -/
theorem parseStringBody_escapeChar (fuel : Nat) (c : Char) (l : List Char) :
    parseStringBody (fuel + 1) (escapeChar c ++ l) =
      (parseStringBody fuel l).map (fun x => (c :: x.1, x.2)) := by
  by_cases h1 : c = '"'
  · subst h1; rfl
  by_cases h2 : c = '\\'
  · subst h2; rfl
  by_cases h3 : c = '\n'
  · subst h3; rfl
  by_cases h4 : c = '\r'
  · subst h4; rfl
  by_cases h5 : c = '\t'
  · subst h5; rfl
  by_cases h6 : c.toNat < 0x20
  · -- a control character other than newline, carriage return, tab
    rw [escapeChar_ctrl c h1 h2 h3 h4 h5 h6]
    have hv1 : hexVal (hexDigitChar (c.toNat / 16)) = some (c.toNat / 16) :=
      hexVal_hexDigitChar _ (by omega)
    have hv2 : hexVal (hexDigitChar (c.toNat % 16)) = some (c.toNat % 16) :=
      hexVal_hexDigitChar _ (by omega)
    show parseStringBody (fuel + 1) ('\\' :: 'u' :: '0' :: '0' ::
      hexDigitChar (c.toNat / 16) :: hexDigitChar (c.toNat % 16) :: l) = _
    rw [parseStringBody]
    simp only [Char.reduceEq, reduceIte, hv1, hv2]
    have h0 : hexVal '0' = some 0 := rfl
    rw [h0]
    have harith : 0 * 4096 + 0 * 256 + c.toNat / 16 * 16 + c.toNat % 16 = c.toNat := by
      omega
    simp only [harith]
    rw [if_neg (by omega), char_ofNat_toNat]
  by_cases h7 : c = '<'
  · subst h7; rfl
  by_cases h8 : c = '>'
  · subst h8; rfl
  by_cases h9 : c = '&'
  · subst h9; rfl
  by_cases h10 : c.toNat = 0x2028
  · have hc : c = Char.ofNat 0x2028 := by rw [← h10, char_ofNat_toNat]
    subst hc; rfl
  by_cases h11 : c.toNat = 0x2029
  · have hc : c = Char.ofNat 0x2029 := by rw [← h11, char_ofNat_toNat]
    subst hc; rfl
  rw [escapeChar_plain c h1 h2 h3 h4 h5 h6 h7 h8 h9 h10 h11]
  exact parseStringBody_plain fuel c l h1 h2 h6

/-- Undoing a whole escaped string body up to the closing quote; one
fuel unit is spent per decoded character. -/
theorem parseStringBody_escapeString (s : List Char) (fuel : Nat) (l : List Char)
    (h : s.length < fuel) :
    parseStringBody fuel (escapeString s ++ '"' :: l) = some (s, l) := by
  induction s generalizing fuel with
  | nil =>
    obtain ⟨k, rfl⟩ : ∃ k, fuel = k + 1 := ⟨fuel - 1, by omega⟩
    rfl
  | cons c t ih =>
    obtain ⟨k, rfl⟩ : ∃ k, fuel = k + 1 := ⟨fuel - 1, by omega⟩
    simp only [escapeString, List.append_assoc]
    rw [parseStringBody_escapeChar, ih k (by simpa using h)]
    rfl

theorem escapeChar_ne_nil (c : Char) : escapeChar c ≠ [] := by
  by_cases h1 : c = '"'
  · subst h1; decide
  by_cases h2 : c = '\\'
  · subst h2; decide
  by_cases h3 : c = '\n'
  · subst h3; decide
  by_cases h4 : c = '\r'
  · subst h4; decide
  by_cases h5 : c = '\t'
  · subst h5; decide
  by_cases h6 : c.toNat < 0x20
  · rw [escapeChar_ctrl c h1 h2 h3 h4 h5 h6]
    exact List.cons_ne_nil _ _
  by_cases h7 : c = '<'
  · subst h7; decide
  by_cases h8 : c = '>'
  · subst h8; decide
  by_cases h9 : c = '&'
  · subst h9; decide
  by_cases h10 : c.toNat = 0x2028
  · have hc : c = Char.ofNat 0x2028 := by rw [← h10, char_ofNat_toNat]
    subst hc; decide
  by_cases h11 : c.toNat = 0x2029
  · have hc : c = Char.ofNat 0x2029 := by rw [← h11, char_ofNat_toNat]
    subst hc; decide
  rw [escapeChar_plain c h1 h2 h3 h4 h5 h6 h7 h8 h9 h10 h11]
  exact List.cons_ne_nil _ _

theorem length_le_escapeString (s : List Char) : s.length ≤ (escapeString s).length := by
  induction s with
  | nil => simp [escapeString]
  | cons c t ih =>
    have h1 : 1 ≤ (escapeChar c).length :=
      List.length_pos.mpr (escapeChar_ne_nil c)
    simp only [escapeString, List.length_append, List.length_cons]
    omega

/-- Round trip of the string encoder through the string parser. -/
theorem parseString_escape (s l : List Char) :
    parseString (escapeString s ++ '"' :: l) = some (s, l) := by
  apply parseStringBody_escapeString
  have := length_le_escapeString s
  simp only [List.length_append, List.length_cons]
  omega

/-! ### Round trip of the integer rendering -/

theorem natDigitsAux_digits (fuel : Nat) :
    ∀ n, ∀ c ∈ natDigitsAux fuel n, ∃ d, d < 10 ∧ c = digitChar d := by
  induction fuel with
  | zero => intro n c hc; simp [natDigitsAux] at hc
  | succ fuel ih =>
    intro n c hc
    rw [natDigitsAux] at hc
    by_cases hn : n = 0
    · simp [hn] at hc
    · rw [if_neg hn] at hc
      rcases List.mem_append.mp hc with h | h
      · exact ih _ c h
      · exact ⟨n % 10, Nat.mod_lt _ (by omega), by simpa using h⟩

theorem natDigitsAux_ne_nil (fuel n : Nat) (hn : n ≠ 0) :
    natDigitsAux (fuel + 1) n ≠ [] := by
  rw [natDigitsAux, if_neg hn]
  simp

theorem parseDigitsAux_natDigitsAux (fuel : Nat) :
    ∀ n acc l, n < 10 ^ fuel →
      parseDigitsAux acc (natDigitsAux fuel n ++ l) =
        parseDigitsAux (acc * 10 ^ (natDigitsAux fuel n).length + n) l := by
  induction fuel with
  | zero =>
    intro n acc l h
    have hn : n = 0 := by simpa using h
    subst hn
    simp [natDigitsAux]
  | succ fuel ih =>
    intro n acc l h
    by_cases hn : n = 0
    · subst hn; simp [natDigitsAux]
    · rw [natDigitsAux, if_neg hn]
      rw [List.append_assoc, List.singleton_append]
      have hdiv : n / 10 < 10 ^ fuel := by
        rw [Nat.div_lt_iff_lt_mul (by omega : 0 < 10)]
        rw [pow_succ] at h
        exact h
      rw [ih (n / 10) acc (digitChar (n % 10) :: l) hdiv]
      have hd : digitVal (digitChar (n % 10)) = some (n % 10) :=
        (digitChar_facts _ (Nat.mod_lt _ (by omega))).1
      have hstep : parseDigitsAux (acc * 10 ^ (natDigitsAux fuel (n / 10)).length + n / 10)
          (digitChar (n % 10) :: l) =
          parseDigitsAux
            ((acc * 10 ^ (natDigitsAux fuel (n / 10)).length + n / 10) * 10 + n % 10) l := by
        rw [parseDigitsAux, hd]
      rw [hstep]
      have hacc : (acc * 10 ^ (natDigitsAux fuel (n / 10)).length + n / 10) * 10 + n % 10 =
          acc * 10 ^ (natDigitsAux fuel (n / 10) ++ [digitChar (n % 10)]).length + n := by
        simp only [List.length_append, List.length_cons, List.length_nil, Nat.zero_add]
        rw [pow_succ, ← mul_assoc]
        omega
      rw [hacc]

theorem renderNat_head (n : Nat) : ∃ d t, d < 10 ∧ renderNat n = digitChar d :: t := by
  by_cases hn : n = 0
  · refine ⟨0, [], by omega, ?_⟩
    rw [hn]
    rfl
  · rw [renderNat, if_neg hn]
    rcases hl : natDigitsAux (n + 1) n with _ | ⟨c, t⟩
    · exact absurd hl (natDigitsAux_ne_nil n n hn)
    · obtain ⟨d, hd10, hcd⟩ := natDigitsAux_digits (n + 1) n c (by rw [hl]; simp)
      exact ⟨d, t, hd10, by rw [hcd]⟩

theorem parseNat_renderNat (n : Nat) (l : List Char) (h : nonDigitHead l) :
    parseNat (renderNat n ++ l) = some (n, l) := by
  by_cases hn : n = 0
  · subst hn
    show parseNat ('0' :: l) = some (0, l)
    have h1 : parseNat ('0' :: l) = some (parseDigitsAux (0 * 10 + 0) l) := rfl
    rw [h1, parseDigitsAux_stop _ l h]
  · obtain ⟨d, t, hd10, hdt⟩ := renderNat_head n
    rw [hdt, List.cons_append, parseNat]
    rw [(digitChar_facts d hd10).1]
    rw [← List.cons_append, ← hdt]
    rw [renderNat, if_neg hn]
    rw [parseDigitsAux_natDigitsAux (n + 1) n 0 l
      (lt_of_lt_of_le (Nat.lt_pow_self (by omega) n) (Nat.pow_le_pow_right (by omega) (by omega)))]
    rw [parseDigitsAux_stop _ l h]
    simp

theorem skipWs_renderInt (i : Int) (l : List Char) :
    skipWs (renderInt i ++ l) = renderInt i ++ l := by
  by_cases hi : i < 0
  · rw [renderInt, if_pos hi, List.cons_append]
    exact skipWs_cons_of_not _ _ rfl
  · rw [renderInt, if_neg hi]
    obtain ⟨d, t, hd10, hdt⟩ := renderNat_head i.toNat
    rw [hdt, List.cons_append]
    exact skipWs_cons_of_not _ _ (digitChar_facts d hd10).2.2.2

/-- Round trip of the integer rendering through the value parser. -/
theorem parseValue_renderInt (i : Int) (l : List Char) (h : nonDigitHead l) :
    parseValue (renderInt i ++ l) = some (.num i, l) := by
  by_cases hi : i < 0
  · rw [renderInt, if_pos hi, List.cons_append, parseValue]
    rw [if_neg (by decide), if_pos rfl]
    rw [parseNat_renderNat i.natAbs l h]
    show some (JField.num (-(i.natAbs : Int)), l) = some (JField.num i, l)
    have habs : (i.natAbs : Int) = -i := Int.ofNat_natAbs_of_nonpos (le_of_lt hi)
    rw [habs, neg_neg]
  · rw [renderInt, if_neg hi]
    obtain ⟨d, t, hd10, hdt⟩ := renderNat_head i.toNat
    rw [hdt, List.cons_append, parseValue]
    rw [if_neg (fun hc => (digitChar_facts d hd10).2.1 hc),
      if_neg (fun hc => (digitChar_facts d hd10).2.2.1 hc)]
    rw [← List.cons_append, ← hdt]
    rw [parseNat_renderNat i.toNat l h]
    show some (JField.num ((i.toNat : Nat) : Int), l) = some (JField.num i, l)
    rw [Int.toNat_of_nonneg (by omega)]

theorem skipWs_quoteString (s l : List Char) :
    skipWs (quoteString s ++ l) = quoteString s ++ l := by
  rw [quoteString, List.cons_append]
  exact skipWs_cons_of_not _ _ rfl

/-- Round trip of the string rendering through the value parser. -/
theorem parseValue_quoteString (s l : List Char) :
    parseValue (quoteString s ++ l) = some (.str s, l) := by
  rw [quoteString, List.cons_append, parseValue, if_pos rfl]
  rw [List.append_assoc, List.singleton_append]
  rw [parseString_escape s l]
  rfl

/-! ### Round trip of one rendered object through the member parser -/

/-- One member of an object: under the stated hypotheses on the input
shape, the member parser consumes the key, the colon and the value and
continues according to the character after the value. -/
theorem parseMembersAux_step (fuel : Nat) (l l1 key valChars tail : List Char) (v : JField)
    (hl : skipWs l = '"' :: l1)
    (hkey : parseString l1 = some (key, ':' :: ' ' :: (valChars ++ tail)))
    (hval : parseValue (skipWs (valChars ++ tail)) = some (v, tail)) :
    parseMembersAux (fuel + 1) l =
      match skipWs tail with
      | [] => none
      | c2 :: rest4 =>
        if c2 = ',' then (parseMembersAux fuel rest4).map (fun x => ((key, v) :: x.1, x.2))
        else if c2 = '}' then some ([(key, v)], rest4)
        else none := by
  rw [parseMembersAux, hl]
  dsimp only []
  rw [if_pos rfl, hkey]
  dsimp only []
  rw [skipWs_cons_of_not ':' _ rfl]
  dsimp only []
  rw [if_pos rfl, skipWs_sp, hval]

/-- A string-valued member of the indented template followed by a comma:
consumed as one key-value pair, continuing with the rest. -/
theorem parseMembersAux_strMember (fuel : Nat) (key s X : List Char)
    (hk : escapeString key = key) :
    parseMembersAux (fuel + 1)
      ('\n' :: ' ' :: ' ' :: ' ' :: ' ' :: '"' ::
        (key ++ '"' :: ':' :: ' ' :: (quoteString s ++ ',' :: X))) =
      (parseMembersAux fuel X).map (fun x => ((key, JField.str s) :: x.1, x.2)) := by
  have hl : skipWs ('\n' :: ' ' :: ' ' :: ' ' :: ' ' :: '"' ::
      (key ++ '"' :: ':' :: ' ' :: (quoteString s ++ ',' :: X))) =
      '"' :: (key ++ '"' :: ':' :: ' ' :: (quoteString s ++ ',' :: X)) := by
    rw [skipWs_nl, skipWs_sp, skipWs_sp, skipWs_sp, skipWs_sp]
    exact skipWs_cons_of_not _ _ rfl
  have hkey : parseString (key ++ '"' :: ':' :: ' ' :: (quoteString s ++ ',' :: X)) =
      some (key, ':' :: ' ' :: (quoteString s ++ ',' :: X)) := by
    have h := parseString_escape key (':' :: ' ' :: (quoteString s ++ ',' :: X))
    rwa [hk] at h
  have hval : parseValue (skipWs (quoteString s ++ ',' :: X)) =
      some (JField.str s, ',' :: X) := by
    rw [skipWs_quoteString]
    exact parseValue_quoteString s (',' :: X)
  rw [parseMembersAux_step fuel _ _ key (quoteString s) (',' :: X) (JField.str s) hl hkey hval]
  rw [skipWs_cons_of_not ',' _ rfl]
  rfl

/-- The integer-valued member of the indented template followed by a
comma. -/
theorem parseMembersAux_numMember (fuel : Nat) (key : List Char) (n : Int) (X : List Char)
    (hk : escapeString key = key) :
    parseMembersAux (fuel + 1)
      ('\n' :: ' ' :: ' ' :: ' ' :: ' ' :: '"' ::
        (key ++ '"' :: ':' :: ' ' :: (renderInt n ++ ',' :: X))) =
      (parseMembersAux fuel X).map (fun x => ((key, JField.num n) :: x.1, x.2)) := by
  have hl : skipWs ('\n' :: ' ' :: ' ' :: ' ' :: ' ' :: '"' ::
      (key ++ '"' :: ':' :: ' ' :: (renderInt n ++ ',' :: X))) =
      '"' :: (key ++ '"' :: ':' :: ' ' :: (renderInt n ++ ',' :: X)) := by
    rw [skipWs_nl, skipWs_sp, skipWs_sp, skipWs_sp, skipWs_sp]
    exact skipWs_cons_of_not _ _ rfl
  have hkey : parseString (key ++ '"' :: ':' :: ' ' :: (renderInt n ++ ',' :: X)) =
      some (key, ':' :: ' ' :: (renderInt n ++ ',' :: X)) := by
    have h := parseString_escape key (':' :: ' ' :: (renderInt n ++ ',' :: X))
    rwa [hk] at h
  have hval : parseValue (skipWs (renderInt n ++ ',' :: X)) =
      some (JField.num n, ',' :: X) := by
    rw [skipWs_renderInt]
    exact parseValue_renderInt n (',' :: X) rfl
  rw [parseMembersAux_step fuel _ _ key (renderInt n) (',' :: X) (JField.num n) hl hkey hval]
  rw [skipWs_cons_of_not ',' _ rfl]
  rfl

/-- The final string-valued member of the indented template, followed by
the newline, the two-space indentation and the closing brace. -/
theorem parseMembersAux_lastMember (fuel : Nat) (key s R : List Char)
    (hk : escapeString key = key) :
    parseMembersAux (fuel + 1)
      ('\n' :: ' ' :: ' ' :: ' ' :: ' ' :: '"' ::
        (key ++ '"' :: ':' :: ' ' :: (quoteString s ++ '\n' :: ' ' :: ' ' :: '}' :: R))) =
      some ([(key, JField.str s)], R) := by
  have hl : skipWs ('\n' :: ' ' :: ' ' :: ' ' :: ' ' :: '"' ::
      (key ++ '"' :: ':' :: ' ' :: (quoteString s ++ '\n' :: ' ' :: ' ' :: '}' :: R))) =
      '"' :: (key ++ '"' :: ':' :: ' ' :: (quoteString s ++ '\n' :: ' ' :: ' ' :: '}' :: R)) := by
    rw [skipWs_nl, skipWs_sp, skipWs_sp, skipWs_sp, skipWs_sp]
    exact skipWs_cons_of_not _ _ rfl
  have hkey : parseString (key ++ '"' :: ':' :: ' ' :: (quoteString s ++ '\n' :: ' ' :: ' ' :: '}' :: R)) =
      some (key, ':' :: ' ' :: (quoteString s ++ '\n' :: ' ' :: ' ' :: '}' :: R)) := by
    have h := parseString_escape key (':' :: ' ' :: (quoteString s ++ '\n' :: ' ' :: ' ' :: '}' :: R))
    rwa [hk] at h
  have hval : parseValue (skipWs (quoteString s ++ '\n' :: ' ' :: ' ' :: '}' :: R)) =
      some (JField.str s, '\n' :: ' ' :: ' ' :: '}' :: R) := by
    rw [skipWs_quoteString]
    exact parseValue_quoteString s ('\n' :: ' ' :: ' ' :: '}' :: R)
  rw [parseMembersAux_step fuel _ _ key (quoteString s) ('\n' :: ' ' :: ' ' :: '}' :: R)
    (JField.str s) hl hkey hval]
  rw [skipWs_nl, skipWs_sp, skipWs_sp, skipWs_cons_of_not '}' _ rfl]
  dsimp only []
  rw [if_neg (by decide), if_pos rfl]

theorem parseMembers_title (fuel : Nat) (s X : List Char) :
    parseMembersAux (fuel + 1)
      ('\n' :: ' ' :: ' ' :: ' ' :: ' ' :: '"' :: 'T' :: 'i' :: 't' :: 'l' :: 'e' :: '"' ::
        ':' :: ' ' :: (quoteString s ++ ',' :: X)) =
      (parseMembersAux fuel X).map
        (fun x => (('T' :: 'i' :: 't' :: 'l' :: 'e' :: [], JField.str s) :: x.1, x.2)) :=
  parseMembersAux_strMember fuel ('T' :: 'i' :: 't' :: 'l' :: 'e' :: []) s X rfl

theorem parseMembers_content (fuel : Nat) (s X : List Char) :
    parseMembersAux (fuel + 1)
      ('\n' :: ' ' :: ' ' :: ' ' :: ' ' :: '"' :: 'C' :: 'o' :: 'n' :: 't' :: 'e' :: 'n' :: 't' :: '"' ::
        ':' :: ' ' :: (quoteString s ++ ',' :: X)) =
      (parseMembersAux fuel X).map
        (fun x => (('C' :: 'o' :: 'n' :: 't' :: 'e' :: 'n' :: 't' :: [], JField.str s) :: x.1, x.2)) :=
  parseMembersAux_strMember fuel ('C' :: 'o' :: 'n' :: 't' :: 'e' :: 'n' :: 't' :: []) s X rfl

theorem parseMembers_createdAt (fuel : Nat) (s X : List Char) :
    parseMembersAux (fuel + 1)
      ('\n' :: ' ' :: ' ' :: ' ' :: ' ' :: '"' :: 'C' :: 'r' :: 'e' :: 'a' :: 't' :: 'e' :: 'd' ::
        'A' :: 't' :: '"' :: ':' :: ' ' :: (quoteString s ++ ',' :: X)) =
      (parseMembersAux fuel X).map
        (fun x => (('C' :: 'r' :: 'e' :: 'a' :: 't' :: 'e' :: 'd' :: 'A' :: 't' :: [],
          JField.str s) :: x.1, x.2)) :=
  parseMembersAux_strMember fuel
    ('C' :: 'r' :: 'e' :: 'a' :: 't' :: 'e' :: 'd' :: 'A' :: 't' :: []) s X rfl

theorem parseMembers_author (fuel : Nat) (s X : List Char) :
    parseMembersAux (fuel + 1)
      ('\n' :: ' ' :: ' ' :: ' ' :: ' ' :: '"' :: 'A' :: 'u' :: 't' :: 'h' :: 'o' :: 'r' :: '"' ::
        ':' :: ' ' :: (quoteString s ++ ',' :: X)) =
      (parseMembersAux fuel X).map
        (fun x => (('A' :: 'u' :: 't' :: 'h' :: 'o' :: 'r' :: [], JField.str s) :: x.1, x.2)) :=
  parseMembersAux_strMember fuel ('A' :: 'u' :: 't' :: 'h' :: 'o' :: 'r' :: []) s X rfl

theorem parseMembers_viewCount (fuel : Nat) (n : Int) (X : List Char) :
    parseMembersAux (fuel + 1)
      ('\n' :: ' ' :: ' ' :: ' ' :: ' ' :: '"' :: 'V' :: 'i' :: 'e' :: 'w' :: 'C' :: 'o' ::
        'u' :: 'n' :: 't' :: '"' :: ':' :: ' ' :: (renderInt n ++ ',' :: X)) =
      (parseMembersAux fuel X).map
        (fun x => (('V' :: 'i' :: 'e' :: 'w' :: 'C' :: 'o' :: 'u' :: 'n' :: 't' :: [],
          JField.num n) :: x.1, x.2)) :=
  parseMembersAux_numMember fuel
    ('V' :: 'i' :: 'e' :: 'w' :: 'C' :: 'o' :: 'u' :: 'n' :: 't' :: []) n X rfl

theorem parseMembers_lastViewed (fuel : Nat) (s R : List Char) :
    parseMembersAux (fuel + 1)
      ('\n' :: ' ' :: ' ' :: ' ' :: ' ' :: '"' :: 'L' :: 'a' :: 's' :: 't' :: 'V' :: 'i' ::
        'e' :: 'w' :: 'e' :: 'd' :: '"' :: ':' :: ' ' ::
        (quoteString s ++ '\n' :: ' ' :: ' ' :: '}' :: R)) =
      some ([('L' :: 'a' :: 's' :: 't' :: 'V' :: 'i' :: 'e' :: 'w' :: 'e' :: 'd' :: [],
        JField.str s)], R) :=
  parseMembersAux_lastMember fuel
    ('L' :: 'a' :: 's' :: 't' :: 'V' :: 'i' :: 'e' :: 'w' :: 'e' :: 'd' :: []) s R rfl

/-- Round trip of one indented rendered Post through the object parser
and the member decoder. -/
theorem parsePost_renderPostIndent (p : Post) (rest : List Char) :
    parsePost (renderPostIndent p ++ rest) = some (p, rest) := by
  unfold parsePost parseObject
  simp only [renderPostIndent, List.cons_append, List.append_assoc, List.nil_append]
  rw [skipWs_cons_of_not '{' _ rfl]
  dsimp only []
  rw [if_pos rfl]
  rw [skipWs_nl, skipWs_sp, skipWs_sp, skipWs_sp, skipWs_sp, skipWs_cons_of_not '"' _ rfl]
  dsimp only []
  rw [if_neg (by decide)]
  simp only [List.length_cons]
  rw [parseMembers_title, parseMembers_content, parseMembers_createdAt, parseMembers_author,
    parseMembers_viewCount, parseMembers_lastViewed]
  rfl

/-! ### Round trip of the rendered array -/

theorem renderPostIndent_head (p : Post) : ∃ B, renderPostIndent p = '{' :: B :=
  ⟨_, rfl⟩

theorem renderElemsIndent_head (p : Post) (t : List Post) :
    ∃ B, renderElemsIndent (p :: t) = '{' :: B := by
  cases t with
  | nil => exact renderPostIndent_head p
  | cons q t2 =>
    obtain ⟨B0, h0⟩ := renderPostIndent_head p
    refine ⟨B0 ++ ',' :: '\n' :: ' ' :: ' ' :: renderElemsIndent (q :: t2), ?_⟩
    show renderPostIndent p ++ ',' :: '\n' :: ' ' :: ' ' :: renderElemsIndent (q :: t2) = _
    rw [h0, List.cons_append]

theorem skipWs_renderElemsIndent (p : Post) (t : List Post) (Y : List Char) :
    skipWs (renderElemsIndent (p :: t) ++ Y) = renderElemsIndent (p :: t) ++ Y := by
  obtain ⟨B, hB⟩ := renderElemsIndent_head p t
  rw [hB, List.cons_append]
  exact skipWs_cons_of_not _ _ rfl

theorem length_le_renderElemsIndent (ps : List Post) :
    ps.length ≤ (renderElemsIndent ps).length := by
  induction ps with
  | nil => simp [renderElemsIndent]
  | cons p t ih =>
    cases t with
    | nil =>
      obtain ⟨B, hB⟩ := renderPostIndent_head p
      rw [show renderElemsIndent [p] = renderPostIndent p from rfl, hB]
      simp
    | cons q t2 =>
      obtain ⟨B, hB⟩ := renderPostIndent_head p
      rw [show renderElemsIndent (p :: q :: t2) =
        renderPostIndent p ++ ',' :: '\n' :: ' ' :: ' ' :: renderElemsIndent (q :: t2) from rfl]
      rw [hB]
      simp only [List.length_append, List.length_cons]
      simp only [List.length_cons] at ih ⊢
      omega

/-- Parsing the rendered elements of a nonempty collection, followed by
the closing newline and bracket, recovers the collection. -/
theorem parseElemsAux_render :
    ∀ (ps : List Post) (fuel : Nat) (R : List Char), ps ≠ [] → ps.length < fuel →
      parseElemsAux fuel (renderElemsIndent ps ++ '\n' :: ']' :: R) = some (ps, R) := by
  intro ps
  induction ps with
  | nil => intro fuel R h _; exact absurd rfl h
  | cons p t ih =>
    intro fuel R _ hlen
    obtain ⟨k, rfl⟩ : ∃ k, fuel = k + 1 := ⟨fuel - 1, by omega⟩
    cases t with
    | nil =>
      rw [show renderElemsIndent [p] = renderPostIndent p from rfl]
      rw [parseElemsAux]
      rw [parsePost_renderPostIndent p ('\n' :: ']' :: R)]
      dsimp only []
      rw [skipWs_nl, skipWs_cons_of_not ']' _ rfl]
      dsimp only []
      rw [if_neg (by decide), if_pos rfl]
    | cons q t2 =>
      rw [show renderElemsIndent (p :: q :: t2) =
        renderPostIndent p ++ ',' :: '\n' :: ' ' :: ' ' :: renderElemsIndent (q :: t2) from rfl]
      simp only [List.cons_append, List.append_assoc]
      rw [parseElemsAux]
      rw [parsePost_renderPostIndent p]
      dsimp only []
      rw [skipWs_cons_of_not ',' _ rfl]
      dsimp only []
      rw [if_pos rfl]
      rw [skipWs_nl, skipWs_sp, skipWs_sp]
      rw [skipWs_renderElemsIndent q t2 ('\n' :: ']' :: R)]
      rw [ih k R (by simp) (by simp only [List.length_cons] at hlen ⊢; omega)]
      rfl

/-- The central round trip: unmarshalling a marshalled collection gives
back exactly the collection. -/
theorem unmarshalPosts_marshalIndentPosts (ps : List Post) :
    unmarshalPosts (marshalIndentPosts ps) = some ps := by
  cases ps with
  | nil => rfl
  | cons p t =>
    rw [show marshalIndentPosts (p :: t) =
      ⟨'[' :: '\n' :: ' ' :: ' ' :: (renderElemsIndent (p :: t) ++ '\n' :: ']' :: [])⟩ from rfl]
    rw [unmarshalPosts]
    rw [show (String.mk ('[' :: '\n' :: ' ' :: ' ' ::
      (renderElemsIndent (p :: t) ++ '\n' :: ']' :: []))).data =
      '[' :: '\n' :: ' ' :: ' ' :: (renderElemsIndent (p :: t) ++ '\n' :: ']' :: []) from rfl]
    rw [skipWs_cons_of_not '[' _ rfl]
    dsimp only []
    rw [if_pos rfl]
    rw [skipWs_nl, skipWs_sp, skipWs_sp]
    rw [skipWs_renderElemsIndent p t ('\n' :: ']' :: [])]
    obtain ⟨B, hB⟩ := renderElemsIndent_head p t
    rw [hB, List.cons_append]
    dsimp only []
    rw [if_neg (by decide)]
    rw [← List.cons_append, ← hB]
    rw [parseElemsAux_render (p :: t) ((renderElemsIndent (p :: t) ++ '\n' :: ']' :: []).length + 1)
      [] (by simp) ?hlen]
    · rfl
    case hlen =>
      have h1 := length_le_renderElemsIndent (p :: t)
      simp only [List.length_append, List.length_cons, List.length_nil]
      simp only [List.length_cons] at h1
      omega

/-! ### Handler-level lemmas -/

/-- Loading a saved collection recovers it exactly, with no error
written to the response. -/
theorem loadPost_savePosts (ps : List Post) :
    loadPost (some (savePosts ps)) = (ps, []) := by
  unfold loadPost savePosts
  dsimp only []
  rw [unmarshalPosts_marshalIndentPosts]

/-! ### The claims -/

/-- C1: for every stored Collection, Enumerate (the index handler)
increments the ViewCount of every record by exactly 1 and sets every
LastViewed to the current date, in order, saves the mutated Collection
to the file, and returns the full mutated sequence as the response
payload. -/
theorem index_bumps_every_record (today method : String) (ps : List Post) :
    ∃ ps2 : List Post,
      index today method (some (savePosts ps)) =
        (some (savePosts ps2),
         [HttpEvent.headerSet "Content-Type" "application/json",
          HttpEvent.bodyWrite (encodePosts ps2)]) ∧
      ∃ hlen : ps2.length = ps.length,
        ∀ i : Fin ps.length,
          (ps2.get (Fin.cast hlen.symm i)).ViewCount = (ps.get i).ViewCount + 1 ∧
          (ps2.get (Fin.cast hlen.symm i)).LastViewed = today := by
  refine ⟨ps.map (fun p => (p.increaseViewCount).setLastViewed today), ?_, ?_, ?_⟩
  · unfold index
    rw [loadPost_savePosts]
    rfl
  · simp
  · intro i
    simp [Post.increaseViewCount, Post.setLastViewed, List.get_eq_getElem, List.getElem_map]

/-- C9: Enumerate preserves the number of records, their order and the
Title, Content, CreatedAt and Author fields of every record; only
ViewCount and LastViewed change. -/
theorem index_frame (today method : String) (ps : List Post) :
    ∃ ps2 : List Post,
      index today method (some (savePosts ps)) =
        (some (savePosts ps2),
         [HttpEvent.headerSet "Content-Type" "application/json",
          HttpEvent.bodyWrite (encodePosts ps2)]) ∧
      ∃ hlen : ps2.length = ps.length,
        ∀ i : Fin ps.length,
          (ps2.get (Fin.cast hlen.symm i)).Title = (ps.get i).Title ∧
          (ps2.get (Fin.cast hlen.symm i)).Content = (ps.get i).Content ∧
          (ps2.get (Fin.cast hlen.symm i)).CreatedAt = (ps.get i).CreatedAt ∧
          (ps2.get (Fin.cast hlen.symm i)).Author = (ps.get i).Author := by
  refine ⟨ps.map (fun p => (p.increaseViewCount).setLastViewed today), ?_, ?_, ?_⟩
  · unfold index
    rw [loadPost_savePosts]
    rfl
  · simp
  · intro i
    simp [Post.increaseViewCount, Post.setLastViewed, List.get_eq_getElem, List.getElem_map]

/-- C10: the index handler never inspects the request method: any two
methods produce identical behavior, and for every file state the full
load, mutate and save cycle runs, overwriting the file with the mutated
loaded collection. -/
theorem index_ignores_method (today m1 m2 : String) (file : Option String) :
    index today m1 file = index today m2 file ∧
    (index today m1 file).1 =
      some (savePosts (((loadPost file).1).map
        (fun p => (p.increaseViewCount).setLastViewed today))) ∧
    (index today m1 file).2 =
      (loadPost file).2 ++
        [HttpEvent.headerSet "Content-Type" "application/json",
         HttpEvent.bodyWrite (encodePosts (((loadPost file).1).map
           (fun p => (p.increaseViewCount).setLastViewed today)))] :=
  ⟨rfl, rfl, rfl⟩

/-- C2: the record persisted by Create carries CreatedAt and LastViewed
equal to the current date and ViewCount 0, whatever the caller supplied
in the payload, and it is appended at the end of the loaded Collection
before saving. -/
theorem create_stamps_and_appends (today body : String) (ps : List Post) :
    ∃ stored : Post,
      create today "POST" (some body) (some (savePosts ps)) =
        (some (savePosts (ps ++ [stored])),
         [HttpEvent.bodyWrite "Post successfully created"]) ∧
      stored.CreatedAt = today ∧ stored.LastViewed = today ∧ stored.ViewCount = 0 := by
  refine ⟨{ (((unmarshalPost body).getD zeroPost).setCreatedAt today).setLastViewed today
      with ViewCount := 0 }, ?_, rfl, rfl, rfl⟩
  unfold create
  rw [if_pos rfl]
  dsimp only []
  rw [loadPost_savePosts]
  rfl

/-- C3: when the durable resource cannot be read, both operations write
an immediate server-side 500 error response (first response write), and
neither partially commits: what reaches the file is a complete saved
Collection. -/
theorem read_error_surfaces_and_full_write (today method body : String) :
    ((index today method none).2.head? =
        some (HttpEvent.error "Error reading request body" 500) ∧
      ∃ ps2, (index today method none).1 = some (savePosts ps2)) ∧
    ((create today "POST" (some body) none).2.head? =
        some (HttpEvent.error "Error reading request body" 500) ∧
      ∃ ps2, (create today "POST" (some body) none).1 = some (savePosts ps2)) := by
  exact ⟨⟨rfl, ⟨[], rfl⟩⟩, ⟨rfl, ⟨[{ (((unmarshalPost body).getD zeroPost).setCreatedAt
    today).setLastViewed today with ViewCount := 0 }], rfl⟩⟩⟩

/-- C4: a Collection written by savePosts, loaded back and saved again,
reproduces the durable content exactly, field for field. -/
theorem savePosts_loadPost_roundtrip (ps : List Post) :
    (loadPost (some (savePosts ps))).1 = ps ∧
    savePosts (loadPost (some (savePosts ps))).1 = savePosts ps := by
  rw [loadPost_savePosts]
  exact ⟨rfl, rfl⟩

/-- C5: a Create request with any method other than POST is answered
with MethodNotAllowed (405) and the file is untouched: no load, mutation
or save happens. -/
theorem create_wrong_method (today method : String) (reqBody file : Option String)
    (h : method ≠ "POST") :
    create today method reqBody file =
      (file, [HttpEvent.error "Please submit a post request" 405]) := by
  unfold create
  rw [if_neg h]

/-- Witness for C5 at the concrete method GET. -/
theorem create_wrong_method_witness :
    ("GET" : String) ≠ "POST" ∧
    create "2026-10-11" "GET" (some "x") (some "[]") =
      ((some "[]" : Option String),
       [HttpEvent.error "Please submit a post request" 405]) :=
  ⟨by decide, create_wrong_method "2026-10-11" "GET" (some "x") (some "[]") (by decide)⟩

/-- C6: when the file exists but its content does not parse, the
condition is swallowed: no error response is written and the operation
proceeds with the empty Collection. -/
theorem corrupt_file_swallowed (today method : String) (s : String)
    (h : unmarshalPosts s = none) :
    index today method (some s) =
      (some (savePosts []),
       [HttpEvent.headerSet "Content-Type" "application/json",
        HttpEvent.bodyWrite (encodePosts [])]) := by
  unfold index loadPost
  dsimp only []
  rw [h]
  rfl

/-- Witness for C6 at a concrete corrupt file content. -/
theorem corrupt_file_swallowed_witness :
    unmarshalPosts "corrupt" = none ∧
    index "2026-10-11" "GET" (some "corrupt") =
      (some (savePosts []),
       [HttpEvent.headerSet "Content-Type" "application/json",
        HttpEvent.bodyWrite (encodePosts [])]) :=
  ⟨by decide, corrupt_file_swallowed "2026-10-11" "GET" "corrupt" (by decide)⟩

/-- C7: a readable but unparseable Create body is not rejected: the
zero-valued record is stamped and appended. -/
theorem create_unparseable_body (today body : String) (ps : List Post)
    (h : unmarshalPost body = none) :
    create today "POST" (some body) (some (savePosts ps)) =
      (some (savePosts (ps ++ [⟨"", "", today, "", 0, today⟩])),
       [HttpEvent.bodyWrite "Post successfully created"]) := by
  unfold create
  rw [if_pos rfl]
  dsimp only []
  rw [h]
  dsimp only [Option.getD]
  rw [loadPost_savePosts]
  rfl

/-- Witness for C7 at a concrete unparseable body. -/
theorem create_unparseable_body_witness :
    unmarshalPost "oops" = none ∧
    create "2026-10-11" "POST" (some "oops") (some (savePosts [])) =
      (some (savePosts [⟨"", "", "2026-10-11", "", 0, "2026-10-11"⟩]),
       [HttpEvent.bodyWrite "Post successfully created"]) :=
  ⟨by decide, create_unparseable_body "2026-10-11" "oops" [] (by decide)⟩

/-- C8 as written is false: main registers the enumerate handler at
/index, not /posts/index, and the response body is written by the
compact Encoder, not with 2-space indentation. -/
theorem enumerate_route_counterexample :
    ("/posts/index" ∉ routes.map Prod.fst) ∧
    (index "2026-10-11" "GET" (some (savePosts [⟨"t", "c", "d", "a", 3, "l"⟩]))).2 ≠
      [HttpEvent.headerSet "Content-Type" "application/json",
       HttpEvent.bodyWrite (marshalIndentPosts [⟨"t", "c", "d", "a", 4, "2026-10-11"⟩])] := by
  constructor
  · decide
  · decide

/-- C8 amended: Enumerate is registered at /index, and its response body
is the post-mutation Record sequence in the compact encoding of
json.Encoder (a trailing newline, no indentation; the 2-space indented
form goes to the durable file). -/
theorem enumerate_route_and_encoding (today method : String) (ps : List Post) :
    ("/index", Handler.index) ∈ routes ∧
    ∃ ps2, (index today method (some (savePosts ps))).2 =
      [HttpEvent.headerSet "Content-Type" "application/json",
       HttpEvent.bodyWrite (encodePosts ps2)] ∧
      ps2 = ps.map (fun p => (p.increaseViewCount).setLastViewed today) := by
  refine ⟨by simp [routes], ps.map (fun p => (p.increaseViewCount).setLastViewed today), ?_, rfl⟩
  unfold index
  rw [loadPost_savePosts]
  rfl

end FlippTutorial
